import Mathlib

/-!
# Verification of the krun launcher and guest mount bootstrap

Shallow embedding of `crates/krun/src/bin/krun.rs` (host launch orchestration)
and `crates/krun/src/guest/mount.rs` (guest mount-namespace bootstrap).

Syscalls and external-library calls are modelled by an explicit world/oracle
(`GuestWorld`, `HostEnv`) that decides the outcome of each fallible operation,
and every function additionally returns the ordered trace of operations it
attempted, so that ordering and frame properties can be stated.

Rust `panic!`/`.unwrap()` aborts are distinguished from recoverable `Result`
errors by the three-valued outcome type `Res`.
-/

namespace Krun

/-- Outcome of running a piece of Rust code: normal return, a recoverable
`Err` propagated with `?`, or a panic (from `.unwrap()`), which aborts the
process and cannot be caught by the caller. -/
inductive Res (α : Type) where
  | ok (a : α)
  | err
  | panic
deriving DecidableEq, Repr

/-- One guest-side operation attempted by `mount.rs` (mount syscalls, file
creation/writes, symlinks, logging). Traces of these record what the guest
bootstrap did and in which order. -/
inductive GOp where
  | mkdirOp (dir : String)
  | mountTmpfs (dir : String)
  | mountErofs (src dst : String)
  | mountOverlay (dst opts : String)
  | symlinkOp (target link : String)
  | createFile (path : String)
  | writeFile (path contents : String)
  | openTreeClone (path : String)
  | moveMountOp (path : String)
  | mountBinfmt
  | createDirAll (path : String)
  | bindMount (src dst : String)
  | logMsg (msg : String)
deriving DecidableEq, Repr

/-- Oracle for the guest environment: the directory listing of `/dev` and the
success/failure of each syscall the guest bootstrap performs. -/
structure GuestWorld where
  devEntries : List String
  mkdirOk : String → Bool
  tmpfsOk : String → Bool
  erofsOk : String → Bool
  overlayOk : Bool
  symlinkOk : Bool
  pathExists : String → Bool
  createOk : String → Bool
  writeOk : String → Bool
  openTreeOk : Bool
  moveMountOk : Bool
  binfmtOk : Bool
  createDirAllOk : Bool
  bindMountOk : Bool

/-- `make_tmpfs` in `mount.rs`: mounts a noexec/nosuid tmpfs over `dir`,
returning a recoverable error on failure. -/
def make_tmpfs (w : GuestWorld) (dir : String) : Res Unit × List GOp :=
  if w.tmpfsOk dir then (Res.ok (), [GOp.mountTmpfs dir])
  else (Res.err, [GOp.mountTmpfs dir])

/-- `mkdir_fex` in `mount.rs`: creates `dir` and `.unwrap()`s the result, so a
failure is a panic, not a recoverable error. -/
def mkdir_fex (w : GuestWorld) (dir : String) : Res Unit × List GOp :=
  if w.mkdirOk dir then (Res.ok (), [GOp.mkdirOp dir])
  else (Res.panic, [GOp.mkdirOp dir])

/-- The `name.starts_with("vd")` test of the `/dev` scan loop, written via
the character list so that concrete instances reduce inside the kernel. -/
def startsWithVd (s : String) : Bool := s.data.take 2 = ['v', 'd']

/-- The `/dev` scan loop of `mount_fex_rootfs` (`mount.rs` lines 44-60): for
each directory entry whose name starts with `vd`, create
`/run/fex-emu/<name>` and mount the erofs image `/dev/<name>` on it, both via
`.unwrap()` (panic on failure); accumulate the per-device directories in
discovery order. -/
def mountDevs (w : GuestWorld) : List String → List String → Res (List String) × List GOp
  | [], images => (Res.ok images, [])
  | name :: rest, images =>
    if startsWithVd name then
      let d := "/run/fex-emu/" ++ name
      if w.mkdirOk d then
        if w.erofsOk ("/dev/" ++ name) then
          let r := mountDevs w rest (images ++ [d])
          (r.1, GOp.mkdirOp d :: GOp.mountErofs ("/dev/" ++ name) d :: r.2)
        else (Res.panic, [GOp.mkdirOp d, GOp.mountErofs ("/dev/" ++ name) d])
      else (Res.panic, [GOp.mkdirOp d])
    else mountDevs w rest images

/-- The two FEX configuration directories probed by `mount_fex_rootfs`. -/
def fexBases : List String := ["/usr/share/fex-emu", "/usr/local/share/fex-emu"]

/-- The JSON document `mount_fex_rootfs` writes into `Config.json`:
`{"Config":{"RootFS":"<dir_rootfs>"}}` plus a newline. -/
def fexJson (dir_rootfs : String) : String :=
  "\x7b\"Config\":\x7b\"RootFS\":\"" ++ dir_rootfs ++ "\"\x7d\x7d\n"

/-- The config-rewrite loop of `mount_fex_rootfs` (`mount.rs` lines 82-90):
for each FEX share directory that exists, mount a tmpfs over it and write a
minimal `Config.json` pointing FEX at the composed rootfs. All three steps
propagate failure as a recoverable error (`?`). -/
def configLoop (w : GuestWorld) (dir_rootfs : String) : List String → Res Unit × List GOp
  | [] => (Res.ok (), [])
  | base :: rest =>
    if w.pathExists base then
      let path := base ++ "/Config.json"
      if w.tmpfsOk base then
        if w.createOk path then
          if w.writeOk path then
            let r := configLoop w dir_rootfs rest
            (r.1, GOp.mountTmpfs base :: GOp.createFile path ::
              GOp.writeFile path (fexJson dir_rootfs) :: r.2)
          else (Res.err, [GOp.mountTmpfs base, GOp.createFile path,
            GOp.writeFile path (fexJson dir_rootfs)])
        else (Res.err, [GOp.mountTmpfs base, GOp.createFile path])
      else (Res.err, [GOp.mountTmpfs base])
    else configLoop w dir_rootfs rest

/-- `mount_fex_rootfs` in `mount.rs`: create `/run/fex-emu/`, mount every
`/dev/vd*` image, then either overlay them (two or more images, lowerdir in
reverse discovery order), symlink the single image, or do neither, and
finally rewrite the FEX configuration directories. -/
def mount_fex_rootfs (w : GuestWorld) : Res Unit × List GOp :=
  if w.mkdirOk "/run/fex-emu/" then
    match mountDevs w w.devEntries [] with
    | (Res.ok images, t1) =>
      if 2 ≤ images.length then
        let opts := "lowerdir=" ++ String.intercalate ":" images.reverse
        if w.mkdirOk "/run/fex-emu/rootfs" then
          if w.overlayOk then
            let c := configLoop w "/run/fex-emu/rootfs" fexBases
            (c.1, GOp.mkdirOp "/run/fex-emu/" :: t1 ++
              GOp.mkdirOp "/run/fex-emu/rootfs" ::
              GOp.mountOverlay "/run/fex-emu/rootfs" opts :: c.2)
          else (Res.err, GOp.mkdirOp "/run/fex-emu/" :: t1 ++
            [GOp.mkdirOp "/run/fex-emu/rootfs",
             GOp.mountOverlay "/run/fex-emu/rootfs" opts])
        else (Res.panic, GOp.mkdirOp "/run/fex-emu/" :: t1 ++
          [GOp.mkdirOp "/run/fex-emu/rootfs"])
      else if images.length = 1 then
        if w.symlinkOk then
          let c := configLoop w "/run/fex-emu/rootfs" fexBases
          (c.1, GOp.mkdirOp "/run/fex-emu/" :: t1 ++
            GOp.symlinkOp (images.headD "") "/run/fex-emu/rootfs" :: c.2)
        else (Res.err, GOp.mkdirOp "/run/fex-emu/" :: t1 ++
          [GOp.symlinkOp (images.headD "") "/run/fex-emu/rootfs"])
      else
        let c := configLoop w "/run/fex-emu/rootfs" fexBases
        (c.1, GOp.mkdirOp "/run/fex-emu/" :: t1 ++ c.2)
    | (Res.err, t1) => (Res.err, GOp.mkdirOp "/run/fex-emu/" :: t1)
    | (Res.panic, t1) => (Res.panic, GOp.mkdirOp "/run/fex-emu/" :: t1)
  else (Res.panic, [GOp.mkdirOp "/run/fex-emu/"])

/-- One fail-fast step of `mount_filesystems`: attempt `op`; on success run
the continuation, on failure stop with a recoverable error. -/
def gstep (ok : Bool) (op : GOp) (rest : Unit → Res Unit × List GOp) :
    Res Unit × List GOp :=
  if ok then
    let r := rest ()
    (r.1, op :: r.2)
  else (Res.err, [op])

/-- The message printed by `mount_filesystems` when `mount_fex_rootfs`
returns an error. -/
def failFexMsg : String := "Failed to mount FEX rootfs, carrying on without."

/-- Steps 3-6 of `mount_filesystems` (`mount.rs` lines 102-145): create the
empty `/tmp/resolv.conf` placeholder, clone it with `open_tree` and
move-mount the clone over `/etc/resolv.conf`, mount `binfmt_misc`, create
`/run/krun-host` and bind-mount `/` on it, and finally mount a tmpfs over
`/tmp/.X11-unix` when that directory exists. -/
def resolvAndLater (w : GuestWorld) : Res Unit × List GOp :=
  gstep (w.createOk "/tmp/resolv.conf") (GOp.createFile "/tmp/resolv.conf") fun _ =>
  gstep w.openTreeOk (GOp.openTreeClone "/tmp/resolv.conf") fun _ =>
  gstep w.moveMountOk (GOp.moveMountOp "/etc/resolv.conf") fun _ =>
  gstep w.binfmtOk GOp.mountBinfmt fun _ =>
  gstep w.createDirAllOk (GOp.createDirAll "/run/krun-host") fun _ =>
  gstep w.bindMountOk (GOp.bindMount "/" "/run/krun-host") fun _ =>
  if w.pathExists "/tmp/.X11-unix" then
    gstep (w.tmpfsOk "/tmp/.X11-unix") (GOp.mountTmpfs "/tmp/.X11-unix") fun _ =>
      (Res.ok (), [])
  else (Res.ok (), [])

/-- `mount_filesystems` in `mount.rs`: tmpfs on `/var/run` (fatal on
failure), then `mount_fex_rootfs` whose `Err` is only logged while a panic
aborts, then the unconditional steps 3-6 (`resolvAndLater`). -/
def mount_filesystems (w : GuestWorld) : Res Unit × List GOp :=
  if w.tmpfsOk "/var/run" then
    match mount_fex_rootfs w with
    | (Res.panic, t) => (Res.panic, GOp.mountTmpfs "/var/run" :: t)
    | (Res.err, t) =>
      let r := resolvAndLater w
      (r.1, GOp.mountTmpfs "/var/run" :: t ++ GOp.logMsg failFexMsg :: r.2)
    | (Res.ok _, t) =>
      let r := resolvAndLater w
      (r.1, GOp.mountTmpfs "/var/run" :: t ++ r.2)
  else (Res.err, [GOp.mountTmpfs "/var/run"])

/-- The per-device mount directories produced from a `/dev` listing:
one `/run/fex-emu/<name>` for each entry whose name starts with `vd`, in
discovery order. -/
def vdDirs (entries : List String) : List String :=
  (entries.filter (fun n => startsWithVd n)).map (fun n => "/run/fex-emu/" ++ n)

/-! ## Host launch orchestration (`bin/krun.rs`)

The RAM sizing in `main` computes `(ram_total as f64 * 0.8) as u32` where
`ram_total` is the host RAM in MiB. We model the IEEE-754 binary64
computation exactly over ℕ: the `f64` literal `0.8` has the value
`M08 / 2^52` with `M08 = 3602879701896397` (the mantissa of the correctly
rounded double nearest to 4/5), the conversion `ram_total as f64` is exact
for every value below `2^53`, and the single multiplication rounds the exact
product `ram_total * M08 / 2^52` to 53 significant bits with
round-to-nearest, ties-to-even. The final `as u32` truncates toward zero
and saturates at `2^32 - 1`. -/

/-- Mantissa (scaled by `2^52`) of the `f64` literal `0.8` in `bin/krun.rs`:
the correctly rounded double nearest to 4/5 is `3602879701896397 / 2^52`. -/
def M08 : ℕ := 3602879701896397

/-- Round `N / 2^s` to the nearest integer, ties to even: the significand
rounding step of IEEE-754 round-to-nearest-even. -/
def rneShift (N s : ℕ) : ℕ :=
  if 2 * (N % 2 ^ s) < 2 ^ s then N / 2 ^ s
  else if 2 ^ s < 2 * (N % 2 ^ s) then N / 2 ^ s + 1
  else if N / 2 ^ s % 2 = 0 then N / 2 ^ s else N / 2 ^ s + 1

/-- Fuel-driven binary logarithm (structurally recursive so that concrete
instances reduce inside the kernel). -/
def log2Fuel : ℕ → ℕ → ℕ
  | 0, _ => 0
  | fuel + 1, n => if 2 ≤ n then log2Fuel fuel (n / 2) + 1 else 0

/-- Position of the highest set bit of `n` (`⌊log₂ n⌋`, and `0` for `n = 0`). -/
def log2Nat (n : ℕ) : ℕ := log2Fuel n n

/-- Floor of the IEEE-754 binary64 round-to-nearest-even of the exact value
`N / 2^52` (for `N` in the binary64 normal range, which covers every value
arising here): when `N` fits in 53 bits the value is exactly representable,
otherwise the significand is rounded to 53 bits. -/
def floorF64ofQ52 (N : ℕ) : ℕ :=
  if log2Nat N ≤ 52 then N / 2 ^ 52
  else rneShift N (log2Nat N - 52) * 2 ^ (log2Nat N - 52) / 2 ^ 52

/-- Rust `as u32` on a nonnegative `f64` with integer floor `x`: truncate
toward zero, saturating at `u32::MAX`. -/
def satU32 (x : ℕ) : ℕ := min x (2 ^ 32 - 1)

/-- The default RAM sizing of `main` (`bin/krun.rs` lines 126-128):
`ram_total = sysinfo.ram_total() / 1024 / 1024`, then
`cmp::min(MiB::from((ram_total as f64 * 0.8) as u32), MiB::from(32768))`. -/
def ramDefaultMib (ramTotalBytes : ℕ) : ℕ :=
  min (satU32 (floorF64ofQ52 (ramTotalBytes / 1024 / 1024 * M08))) 32768

/-- The RAM configured by `main`: the explicit `--mem` value when given,
otherwise the 80%-of-total clamped default. -/
def ramMib (mem : Option ℕ) (ramTotalBytes : ℕ) : ℕ :=
  match mem with
  | some r => r
  | none => ramDefaultMib ramTotalBytes

/-- Total number of cores across all groups of a CPU list. -/
def totalCores (cpu_list : List (List ℕ)) : ℕ :=
  cpu_list.foldl (fun acc cpus => acc + cpus.length) 0

/-- The vCPU count `main` passes to `krun_set_vm_config`
(`bin/krun.rs` line 122): the fold that sums the group sizes, followed by
the truncating cast `as u8`. -/
def numVcpus (cpu_list : List (List ℕ)) : ℕ :=
  cpu_list.foldl (fun acc cpus => acc + cpus.length) 0 % 2 ^ 8

/-- The hardcoded default disk-image list of `main`
(`bin/krun.rs` lines 168-171), in declared order. -/
def defaultDisks : List String :=
  ["/usr/share/fex-emu/RootFS/default.erofs",
   "/usr/share/fex-emu/overlays/mesa.erofs"]

/-- The disk selector of `main` (`bin/krun.rs` lines 165-178): explicit
images are used exactly as given; otherwise the hardcoded default list is
filtered to the paths that exist. -/
def selectDisks (fex_images : List String) (pathExists : String → Bool) : List String :=
  if !fex_images.isEmpty then fex_images
  else defaultDisks.filter pathExists

/-- Modelled from the spec: `krun_add_disk` (the hypervisor boundary behind
`add_ro_disk`) is not part of this repository's sources; per the spec a
missing path is a fatal error, so attaching a disk fails exactly when the
image path does not exist. -/
def addRoDisk (pathExists : String → Bool) (path : String) : Except String Unit :=
  if pathExists path then Except.ok () else Except.error path

/-- The disk-attachment loop of `main` (`bin/krun.rs` lines 180-182): each
`add_ro_disk` failure is fatal (propagated with `?`). -/
def addDisks (pathExists : String → Bool) : List String → Except String Unit
  | [] => Except.ok ()
  | p :: rest =>
    match addRoDisk pathExists p with
    | Except.ok _ => addDisks pathExists rest
    | Except.error e => Except.error e

/-- Host-side operations of `main`, recorded in order, up to the
vCPU/RAM configuration call. -/
inductive HOp where
  | launchOrLock
  | setLogLevel
  | createCtx
  | setAffinity
  | setVmConfig (vcpus ram : ℕ)
deriving DecidableEq, Repr

/-- Oracle for the host environment of `main`: identity, CLI options, CPU
discovery and sysinfo results, and the outcome of each external call, up to
the vCPU/RAM configuration step. -/
structure HostEnv where
  uid : ℕ
  euid : ℕ
  launchOrLockOk : Bool
  launchRequested : Bool
  logLevelOk : Bool
  createCtxOk : Bool
  cpuListOpt : List (List ℕ)
  perfCores : Res (List (List ℕ))
  fallbackCores : Res (List (List ℕ))
  memOpt : Option ℕ
  sysinfoOk : Bool
  ramTotalBytes : ℕ
  setAffinityOk : Bool
  vmConfigOk : Bool

/-- The CPU list used by `main` (`bin/krun.rs` lines 113-121): the explicit
`--cpu-list` when nonempty, else the performance cores, else the fallback
cores; failure of both discovery calls is fatal. -/
def cpuListOf (e : HostEnv) : Res (List (List ℕ)) :=
  if !e.cpuListOpt.isEmpty then Res.ok e.cpuListOpt
  else
    match e.perfCores with
    | Res.ok c => Res.ok c
    | _ => e.fallbackCores

/-- The prefix of `main` in `bin/krun.rs` up to and including the
`krun_set_vm_config` call, as a trace of host operations: the root-identity
guard, `launch_or_lock` (early exit when an already-running instance accepts
the forwarded request), `krun_set_log_level`, `krun_create_ctx`, CPU-list
and RAM sizing, `sched_setaffinity`, and `krun_set_vm_config`. Later steps
of `main` are embedded separately as pure functions. -/
def hostMain (e : HostEnv) : Res Unit × List HOp :=
  if e.uid = 0 ∨ e.euid = 0 then (Res.err, [])
  else if !e.launchOrLockOk then (Res.err, [HOp.launchOrLock])
  else if e.launchRequested then (Res.ok (), [HOp.launchOrLock])
  else if !e.logLevelOk then (Res.err, [HOp.launchOrLock, HOp.setLogLevel])
  else if !e.createCtxOk then
    (Res.err, [HOp.launchOrLock, HOp.setLogLevel, HOp.createCtx])
  else
    match cpuListOf e with
    | Res.ok cpu_list =>
      match (match e.memOpt with
             | some r => Res.ok r
             | none =>
               if e.sysinfoOk then Res.ok (ramDefaultMib e.ramTotalBytes)
               else Res.err) with
      | Res.ok ram_mib =>
        if !e.setAffinityOk then
          (Res.err, [HOp.launchOrLock, HOp.setLogLevel, HOp.createCtx,
            HOp.setAffinity])
        else
          ((if e.vmConfigOk then Res.ok () else Res.err),
           [HOp.launchOrLock, HOp.setLogLevel, HOp.createCtx, HOp.setAffinity,
            HOp.setVmConfig (numVcpus cpu_list) ram_mib])
      | _ => (Res.err, [HOp.launchOrLock, HOp.setLogLevel, HOp.createCtx])
    | _ => (Res.err, [HOp.launchOrLock, HOp.setLogLevel, HOp.createCtx])

/-- Insertion into a string-keyed map represented as an association list:
`HashMap::insert` semantics (replace the value when the key is present,
otherwise add the entry). -/
def hmInsert (k v : String) : List (String × String) → List (String × String)
  | [] => [(k, v)]
  | (k', v') :: rest =>
    if k' = k then (k, v) :: rest else (k', v') :: hmInsert k v rest

/-- The guest environment map assembled by `main`
(`bin/krun.rs` lines 328-332): the prepared user environment with
`KRUN_SERVER_PORT` unconditionally inserted, bound to the control port. -/
def finalEnvMap (envIn : List (String × String)) (port : ℕ) :
    List (String × String) :=
  hmInsert "KRUN_SERVER_PORT" (toString port) envIn

/-- The `Env` list of the serialized `{"Config":{"Cmd","Env"}}` document
(`bin/krun.rs` lines 341-343): each map entry formatted as `KEY=VALUE`. -/
def krunConfigEnvs (envIn : List (String × String)) (port : ℕ) : List String :=
  (finalEnvMap envIn port).map (fun kv => kv.1 ++ "=" ++ kv.2)


/-! ## Supporting lemmas for the RAM sizing model -/


theorem log2Fuel_bounds : ∀ fuel n, 1 ≤ n → n ≤ fuel →
    2 ^ log2Fuel fuel n ≤ n ∧ n < 2 ^ (log2Fuel fuel n + 1) := by
  intro fuel
  induction fuel with
  | zero => intro n h1 h2; omega
  | succ f ih =>
    intro n h1 h2
    rw [log2Fuel]
    by_cases h : 2 ≤ n
    · rw [if_pos h]
      have hrec := ih (n / 2) (by omega) (by omega)
      rcases hrec with ⟨hl, hu⟩
      constructor
      · rw [pow_succ]
        omega
      · rw [pow_succ] at hu ⊢
        rw [pow_succ]
        omega
    · rw [if_neg h]
      simp only [pow_zero, pow_one]
      omega

theorem log2Nat_bounds (n : ℕ) (h : 1 ≤ n) :
    2 ^ log2Nat n ≤ n ∧ n < 2 ^ (log2Nat n + 1) :=
  log2Fuel_bounds n n h le_rfl

/-- Truncating the 53-bit significand (rounding the tail down) never moves
the floor of the value below `4 * n / 5`: the discarded tail `N % 2^s` is at
most the distance `N % 2^52` from the next lower multiple of `2^52`. -/
theorem roundDown_div (n s : ℕ) (hn : n < 2 ^ 45) (hs : s ≤ 52) :
    n * M08 / 2 ^ s * 2 ^ s / 2 ^ 52 = 4 * n / 5 := by
  have hM : M08 = 3602879701896397 := rfl
  have hdvd : (2 : ℕ) ^ s ∣ 2 ^ 52 := pow_dvd_pow 2 hs
  have hBle : n * M08 % 2 ^ s ≤ n * M08 % 2 ^ 52 := by
    rw [← Nat.mod_mod_of_dvd (n * M08) hdvd]
    exact Nat.mod_le _ _
  have hdm : n * M08 / 2 ^ s * 2 ^ s + n * M08 % 2 ^ s = n * M08 :=
    Nat.div_add_mod' _ _
  rw [hM] at hBle hdm ⊢
  generalize n * 3602879701896397 / 2 ^ s * 2 ^ s = X at hdm ⊢
  generalize n * 3602879701896397 % 2 ^ s = B at hdm hBle
  omega

/-- Rounding the 53-bit significand up never moves the floor of the value
above `4 * n / 5`: the increment `2^s` is at most `2 * B ≤ 2^45`, while the
distance to the next higher multiple of `2^52` is at least
`2^52 - (4 * 2^52 + 2^45) / 5`. -/
theorem roundUp_div (n s : ℕ) (hn : n < 2 ^ 45) (hs : s ≤ 44) :
    (n * M08 / 2 ^ s + 1) * 2 ^ s / 2 ^ 52 = 4 * n / 5 := by
  have hM : M08 = 3602879701896397 := rfl
  have hP0 : 0 < (2 : ℕ) ^ s := Nat.pos_pow_of_pos s (by omega)
  have hlt : n * M08 % 2 ^ s < 2 ^ s := Nat.mod_lt _ hP0
  have hdm : n * M08 / 2 ^ s * 2 ^ s + n * M08 % 2 ^ s = n * M08 :=
    Nat.div_add_mod' _ _
  have hP44 : (2 : ℕ) ^ s ≤ 2 ^ 44 := Nat.pow_le_pow_right (by omega) hs
  rw [add_mul, one_mul, hM] at *
  generalize n * 3602879701896397 / 2 ^ s * 2 ^ s = X at hdm ⊢
  generalize n * 3602879701896397 % 2 ^ s = B at hdm hlt
  generalize (2 : ℕ) ^ s = P at hlt hP44 ⊢
  omega

/-- The binary64 computation `(n as f64 * 0.8) as u32` (before saturation)
has floor exactly `⌊4n/5⌋` for every `n < 2^45` — covering every host RAM
size in MiB, since `u64` bytes divided by `2^20` is below `2^44`. -/
theorem floorF64_mul08 (n : ℕ) (hn : n < 2 ^ 45) :
    floorF64ofQ52 (n * M08) = 4 * n / 5 := by
  have hM : M08 = 3602879701896397 := rfl
  rw [floorF64ofQ52]
  by_cases hsmall : log2Nat (n * M08) ≤ 52
  · rw [if_pos hsmall, hM]
    omega
  · rw [if_neg hsmall]
    have hN1 : 1 ≤ n * M08 := by
      rcases Nat.eq_zero_or_pos (n * M08) with h0 | h1
      · exfalso
        apply hsmall
        rw [h0]
        rw [show log2Nat 0 = 0 from rfl]
        omega
      · exact h1
    have hb := log2Nat_bounds (n * M08) hN1
    have hb97 : log2Nat (n * M08) ≤ 96 := by
      by_contra hgt
      have h1 : (2 : ℕ) ^ 97 ≤ 2 ^ log2Nat (n * M08) :=
        Nat.pow_le_pow_right (by omega) (by omega)
      have h2 : n * M08 < 2 ^ 97 := by
        calc n * M08 ≤ (2 ^ 45 - 1) * M08 := Nat.mul_le_mul_right _ (by omega)
          _ < 2 ^ 97 := by rw [hM]; norm_num
      omega
    rw [rneShift]
    by_cases h1 : 2 * (n * M08 % 2 ^ (log2Nat (n * M08) - 52)) <
        2 ^ (log2Nat (n * M08) - 52)
    · rw [if_pos h1]
      exact roundDown_div n _ hn (by omega)
    · rw [if_neg h1]
      by_cases h2 : 2 ^ (log2Nat (n * M08) - 52) <
          2 * (n * M08 % 2 ^ (log2Nat (n * M08) - 52))
      · rw [if_pos h2]
        exact roundUp_div n _ hn (by omega)
      · rw [if_neg h2]
        by_cases h3 : n * M08 / 2 ^ (log2Nat (n * M08) - 52) % 2 = 0
        · rw [if_pos h3]
          exact roundDown_div n _ hn (by omega)
        · rw [if_neg h3]
          exact roundUp_div n _ hn (by omega)

/-- The default RAM sizing equals `min ⌊0.8 * MiB⌋ 32768` for every `u64`
byte count. -/
theorem ramDefaultMib_eq (bytes : ℕ) (hb : bytes < 2 ^ 64) :
    ramDefaultMib bytes = min (4 * (bytes / 1024 / 1024) / 5) 32768 := by
  have hn : bytes / 1024 / 1024 < 2 ^ 45 := by omega
  rw [ramDefaultMib, floorF64_mul08 _ hn, satU32]
  omega


/-! ## Host-side claims -/

/-- Any list of explicit disk paths containing a missing path makes the
attachment loop fail. -/
theorem addDisks_error (ex : String → Bool) :
    ∀ l : List String, (∃ p, p ∈ l ∧ ex p = false) →
      ∃ e, addDisks ex l = Except.error e := by
  intro l
  induction l with
  | nil => rintro ⟨p, hp, _⟩; cases hp
  | cons q rest ih =>
    rintro ⟨p, hp, hex⟩
    rw [addDisks, addRoDisk]
    by_cases hq : ex q = true
    · rw [if_pos hq]
      rcases List.mem_cons.mp hp with h | h
      · subst h; rw [hq] at hex; cases hex
      · exact ih ⟨p, h, hex⟩
    · rw [if_neg hq]
      exact ⟨q, rfl⟩

/-- The freshly inserted key/value pair is a member of the updated map. -/
theorem hmInsert_mem (k v : String) (l : List (String × String)) :
    (k, v) ∈ hmInsert k v l := by
  induction l with
  | nil => simp [hmInsert]
  | cons kv rest ih =>
    obtain ⟨k', v'⟩ := kv
    rw [hmInsert]
    by_cases h : k' = k
    · rw [if_pos h]; exact List.mem_cons_self _ _
    · rw [if_neg h]; exact List.mem_cons_of_mem _ ih

/-- C2: with no explicit RAM size, the configured RAM in MiB is
`min ⌊0.8 * total_host_ram_MiB⌋ 32768`; an explicit size is used exactly;
and in particular 16 GiB of host RAM yields 13107 MiB while 64 GiB hits the
32768 MiB ceiling. -/
theorem claim_C2_ram_sizing (mem : Option ℕ) (bytes : ℕ) (hb : bytes < 2 ^ 64) :
    (∀ r, mem = some r → ramMib mem bytes = r) ∧
    (mem = none → ramMib mem bytes = min (4 * (bytes / 1024 / 1024) / 5) 32768) ∧
    ramMib none (16 * 2 ^ 30) = 13107 ∧ ramMib none (64 * 2 ^ 30) = 32768 := by
  refine ⟨?_, ?_, ?_, ?_⟩
  · intro r h; subst h; rfl
  · intro h; subst h; exact ramDefaultMib_eq bytes hb
  · have h := ramDefaultMib_eq (16 * 2 ^ 30) (by norm_num)
    rw [ramMib] at *
    rw [h]
    decide
  · have h := ramDefaultMib_eq (64 * 2 ^ 30) (by norm_num)
    rw [ramMib] at *
    rw [h]
    decide

theorem claim_C2_witness :
    (16 * 2 ^ 30 : ℕ) < 2 ^ 64 ∧ ramMib none (16 * 2 ^ 30) = 13107 :=
  ⟨by norm_num, (claim_C2_ram_sizing none (16 * 2 ^ 30) (by norm_num)).2.2.1⟩

/-- A host environment with an explicit 256-core CPU list, used to exhibit
the `as u8` truncation of the vCPU count. -/
def envWide : HostEnv :=
  { uid := 1000, euid := 1000, launchOrLockOk := true, launchRequested := false,
    logLevelOk := true, createCtxOk := true,
    cpuListOpt := [List.replicate 256 0], perfCores := Res.err,
    fallbackCores := Res.err, memOpt := some 1024, sysinfoOk := true,
    ramTotalBytes := 0, setAffinityOk := true, vmConfigOk := true }

/-- A host environment with an explicit three-core CPU list. -/
def envSmall : HostEnv :=
  { uid := 1000, euid := 1000, launchOrLockOk := true, launchRequested := false,
    logLevelOk := true, createCtxOk := true,
    cpuListOpt := [[0, 1], [2]], perfCores := Res.err,
    fallbackCores := Res.err, memOpt := some 1024, sysinfoOk := true,
    ramTotalBytes := 0, setAffinityOk := true, vmConfigOk := true }

set_option maxRecDepth 4096 in
/-- C3 counterexample: with a 256-core list, the vCPU count passed to the VM
configuration call is 0, not the total 256 — the `as u8` cast truncates. -/
theorem claim_C3_counterexample :
    HOp.setVmConfig 0 1024 ∈ (hostMain envWide).2 ∧
    totalCores [List.replicate 256 0] = 256 ∧ (0 : ℕ) ≠ 256 := by
  refine ⟨?_, by decide, by decide⟩
  decide

/-- C3 (amended): the vCPU count passed to `krun_set_vm_config` is the total
core count reduced modulo `2^8` (the `as u8` cast); it equals the total
exactly when the total fits in a `u8`. -/
theorem claim_C3_vcpus (e : HostEnv) (l : List (List ℕ)) (vc ram : ℕ)
    (hl : cpuListOf e = Res.ok l)
    (hmem : HOp.setVmConfig vc ram ∈ (hostMain e).2) :
    vc = totalCores l % 2 ^ 8 ∧ (totalCores l < 2 ^ 8 → vc = totalCores l) := by
  have hvc : vc = numVcpus l := by
    rw [hostMain, hl] at hmem
    repeat' split at hmem
    all_goals simp_all
  subst hvc
  constructor
  · rfl
  · intro h
    rw [numVcpus, totalCores] at *
    omega

theorem claim_C3_witness :
    cpuListOf envSmall = Res.ok [[0, 1], [2]] ∧
    HOp.setVmConfig 3 1024 ∈ (hostMain envSmall).2 ∧
    (3 = totalCores [[0, 1], [2]] % 2 ^ 8 ∧
     (totalCores [[0, 1], [2]] < 2 ^ 8 → 3 = totalCores [[0, 1], [2]])) :=
  ⟨by decide, by decide,
   claim_C3_vcpus envSmall [[0, 1], [2]] 3 1024 (by decide) (by decide)⟩

/-- C4: with explicit image paths the selector uses exactly those, and a
missing explicit path makes the attachment loop fail; with no explicit paths
the selector yields exactly the existing members of the fixed two-element
default list, in declared order, silently skipping missing ones. -/
theorem claim_C4_disk_selector (imgs : List String) (ex : String → Bool) :
    (imgs ≠ [] → selectDisks imgs ex = imgs) ∧
    (imgs ≠ [] → (∃ p, p ∈ imgs ∧ ex p = false) →
      ∃ e, addDisks ex (selectDisks imgs ex) = Except.error e) ∧
    (imgs = [] → selectDisks imgs ex =
      (if ex "/usr/share/fex-emu/RootFS/default.erofs"
       then ["/usr/share/fex-emu/RootFS/default.erofs"] else []) ++
      (if ex "/usr/share/fex-emu/overlays/mesa.erofs"
       then ["/usr/share/fex-emu/overlays/mesa.erofs"] else [])) := by
  have hsel : imgs ≠ [] → selectDisks imgs ex = imgs := by
    intro h
    rw [selectDisks, if_pos]
    simpa using h
  refine ⟨hsel, ?_, ?_⟩
  · intro h hex
    rw [hsel h]
    exact addDisks_error ex imgs hex
  · intro h
    subst h
    rw [selectDisks, defaultDisks]
    by_cases h1 : ex "/usr/share/fex-emu/RootFS/default.erofs" <;>
      by_cases h2 : ex "/usr/share/fex-emu/overlays/mesa.erofs" <;>
      simp [List.filter, h1, h2]

theorem claim_C4_witness :
    ((["/home/u/img.erofs"] : List String) ≠ [] ∧
     selectDisks ["/home/u/img.erofs"] (fun _ => false) = ["/home/u/img.erofs"] ∧
     ∃ e, addDisks (fun _ => false)
       (selectDisks ["/home/u/img.erofs"] (fun _ => false)) = Except.error e) ∧
    selectDisks [] (fun _ => true) = defaultDisks :=
  ⟨⟨by decide,
    (claim_C4_disk_selector ["/home/u/img.erofs"] (fun _ => false)).1 (by decide),
    (claim_C4_disk_selector ["/home/u/img.erofs"] (fun _ => false)).2.1 (by decide)
      ⟨"/home/u/img.erofs", by decide, rfl⟩⟩,
   by
    have h := (claim_C4_disk_selector [] (fun _ => true)).2.2 rfl
    rw [h]
    decide⟩

/-- An environment invoking the launcher with real user ID 0. -/
def envRoot : HostEnv :=
  { uid := 0, euid := 1000, launchOrLockOk := true, launchRequested := false,
    logLevelOk := true, createCtxOk := true, cpuListOpt := [[0]],
    perfCores := Res.err, fallbackCores := Res.err, memOpt := some 1024,
    sysinfoOk := true, ramTotalBytes := 0, setAffinityOk := true,
    vmConfigOk := true }

/-- C9: when the real or effective user ID is 0 the launcher fails
immediately, with an empty operation trace — before lock acquisition or any
hypervisor configuration. -/
theorem claim_C9_root_rejected (e : HostEnv) (h : e.uid = 0 ∨ e.euid = 0) :
    hostMain e = (Res.err, []) := by
  rw [hostMain, if_pos h]

theorem claim_C9_witness :
    (envRoot.uid = 0 ∨ envRoot.euid = 0) ∧ hostMain envRoot = (Res.err, []) :=
  ⟨Or.inl rfl, claim_C9_root_rejected envRoot (Or.inl rfl)⟩

/-- C10: the serialized guest environment list always contains the
`KRUN_SERVER_PORT=<port>` entry, whatever the user-supplied environment. -/
theorem claim_C10_server_port (envIn : List (String × String)) (port : ℕ) :
    ("KRUN_SERVER_PORT=" ++ toString port) ∈ krunConfigEnvs envIn port :=
  List.mem_map_of_mem _ (hmInsert_mem "KRUN_SERVER_PORT" (toString port) envIn)

/-! ## Trace lemmas for the guest bootstrap -/

/-- Every operation of the `/dev` scan loop is a directory creation or an
erofs mount. -/
theorem mountDevs_shape (w : GuestWorld) :
    ∀ entries acc op, op ∈ (mountDevs w entries acc).2 →
      (∃ d, op = GOp.mkdirOp d) ∨ (∃ s d, op = GOp.mountErofs s d) := by
  intro entries
  induction entries with
  | nil => intro acc op h; simp [mountDevs] at h
  | cons name rest ih =>
    intro acc op h
    rw [mountDevs] at h
    by_cases hn : startsWithVd name = true
    · rw [if_pos hn] at h
      by_cases hm : w.mkdirOk ("/run/fex-emu/" ++ name)
      · rw [if_pos hm] at h
        by_cases he : w.erofsOk ("/dev/" ++ name)
        · rw [if_pos he] at h
          rcases List.mem_cons.mp h with h1 | h1
          · exact Or.inl ⟨_, h1⟩
          rcases List.mem_cons.mp h1 with h2 | h2
          · exact Or.inr ⟨_, _, h2⟩
          · exact ih _ _ h2
        · rw [if_neg he] at h
          rcases List.mem_cons.mp h with h1 | h1
          · exact Or.inl ⟨_, h1⟩
          · rcases List.mem_singleton.mp h1 with h2
            exact Or.inr ⟨_, _, h2⟩
      · rw [if_neg hm] at h
        rcases List.mem_singleton.mp h with h1
        exact Or.inl ⟨_, h1⟩
    · rw [if_neg hn] at h
      exact ih _ _ h

/-- Every operation of the FEX config-rewrite loop concerns one of the
visited base directories: its tmpfs mount or its `Config.json`. -/
theorem configLoop_shape (w : GuestWorld) (dr : String) :
    ∀ bases op, op ∈ (configLoop w dr bases).2 →
      ∃ b, b ∈ bases ∧ (op = GOp.mountTmpfs b ∨
        op = GOp.createFile (b ++ "/Config.json") ∨
        op = GOp.writeFile (b ++ "/Config.json") (fexJson dr)) := by
  intro bases
  induction bases with
  | nil => intro op h; simp [configLoop] at h
  | cons base rest ih =>
    intro op h
    rw [configLoop] at h
    by_cases hp : w.pathExists base
    · rw [if_pos hp] at h
      by_cases ht : w.tmpfsOk base
      · rw [if_pos ht] at h
        by_cases hc : w.createOk (base ++ "/Config.json")
        · rw [if_pos hc] at h
          by_cases hw : w.writeOk (base ++ "/Config.json")
          · rw [if_pos hw] at h
            rcases List.mem_cons.mp h with h1 | h1
            · exact ⟨base, List.mem_cons_self _ _, Or.inl h1⟩
            rcases List.mem_cons.mp h1 with h2 | h2
            · exact ⟨base, List.mem_cons_self _ _, Or.inr (Or.inl h2)⟩
            rcases List.mem_cons.mp h2 with h3 | h3
            · exact ⟨base, List.mem_cons_self _ _, Or.inr (Or.inr h3)⟩
            · obtain ⟨b, hb, hop⟩ := ih _ h3
              exact ⟨b, List.mem_cons_of_mem _ hb, hop⟩
          · rw [if_neg hw] at h
            simp only [List.mem_cons, List.mem_singleton] at h
            rcases h with h1 | h1 | h1
            · exact ⟨base, List.mem_cons_self _ _, Or.inl h1⟩
            · exact ⟨base, List.mem_cons_self _ _, Or.inr (Or.inl h1)⟩
            · rcases h1 with h1 | h1
              · exact ⟨base, List.mem_cons_self _ _, Or.inr (Or.inr h1)⟩
              · simp at h1
        · rw [if_neg hc] at h
          simp only [List.mem_cons, List.mem_singleton] at h
          rcases h with h1 | h1
          · exact ⟨base, List.mem_cons_self _ _, Or.inl h1⟩
          · rcases h1 with h1 | h1
            · exact ⟨base, List.mem_cons_self _ _, Or.inr (Or.inl h1)⟩
            · simp at h1
      · rw [if_neg ht] at h
        rcases List.mem_singleton.mp h with h1
        exact ⟨base, List.mem_cons_self _ _, Or.inl h1⟩
    · rw [if_neg hp] at h
      obtain ⟨b, hb, hop⟩ := ih _ h
      exact ⟨b, List.mem_cons_of_mem _ hb, hop⟩

/-- Classification of the operations `mount_fex_rootfs` can emit. -/
def FexOpLike (op : GOp) : Prop :=
  (∃ d, op = GOp.mkdirOp d) ∨ (∃ s d, op = GOp.mountErofs s d) ∨
  (∃ o, op = GOp.mountOverlay "/run/fex-emu/rootfs" o) ∨
  (∃ t, op = GOp.symlinkOp t "/run/fex-emu/rootfs") ∨
  (∃ b, b ∈ fexBases ∧ (op = GOp.mountTmpfs b ∨
    op = GOp.createFile (b ++ "/Config.json") ∨
    op = GOp.writeFile (b ++ "/Config.json") (fexJson "/run/fex-emu/rootfs")))

/-- Every operation emitted by `mount_fex_rootfs` is one of the classified
rootfs-composition operations. -/
theorem fex_shape (w : GuestWorld) (op : GOp)
    (h : op ∈ (mount_fex_rootfs w).2) : FexOpLike op := by
  rw [mount_fex_rootfs] at h
  by_cases hm : w.mkdirOk "/run/fex-emu/"
  · rw [if_pos hm] at h
    rcases hmd : mountDevs w w.devEntries [] with ⟨r, t1⟩
    rw [hmd] at h
    have ht1 : ∀ o, o ∈ t1 → (∃ d, o = GOp.mkdirOp d) ∨
        (∃ s d, o = GOp.mountErofs s d) := by
      intro o ho
      exact mountDevs_shape w w.devEntries [] o (by rw [hmd]; exact ho)
    cases r with
    | ok images =>
      dsimp only at h
      by_cases h2 : 2 ≤ images.length
      · rw [if_pos h2] at h
        by_cases hmr : w.mkdirOk "/run/fex-emu/rootfs"
        · rw [if_pos hmr] at h
          by_cases hov : w.overlayOk
          · rw [if_pos hov] at h
            rcases List.mem_cons.mp h with h1 | h1
            · exact Or.inl ⟨_, h1⟩
            rcases List.mem_append.mp h1 with h2 | h2
            · rcases ht1 _ h2 with hh | hh
              · exact Or.inl hh
              · exact Or.inr (Or.inl hh)
            rcases List.mem_cons.mp h2 with h3 | h3
            · exact Or.inl ⟨_, h3⟩
            rcases List.mem_cons.mp h3 with h4 | h4
            · exact Or.inr (Or.inr (Or.inl ⟨_, h4⟩))
            · obtain ⟨b, hb, hop⟩ := configLoop_shape w _ _ _ h4
              exact Or.inr (Or.inr (Or.inr (Or.inr ⟨b, hb, hop⟩)))
          · rw [if_neg hov] at h
            rcases List.mem_cons.mp h with h1 | h1
            · exact Or.inl ⟨_, h1⟩
            rcases List.mem_append.mp h1 with h2 | h2
            · rcases ht1 _ h2 with hh | hh
              · exact Or.inl hh
              · exact Or.inr (Or.inl hh)
            rcases List.mem_cons.mp h2 with h3 | h3
            · exact Or.inl ⟨_, h3⟩
            · rcases List.mem_singleton.mp h3 with h4
              exact Or.inr (Or.inr (Or.inl ⟨_, h4⟩))
        · rw [if_neg hmr] at h
          rcases List.mem_cons.mp h with h1 | h1
          · exact Or.inl ⟨_, h1⟩
          rcases List.mem_append.mp h1 with h2 | h2
          · rcases ht1 _ h2 with hh | hh
            · exact Or.inl hh
            · exact Or.inr (Or.inl hh)
          · rcases List.mem_singleton.mp h2 with h3
            exact Or.inl ⟨_, h3⟩
      · rw [if_neg h2] at h
        by_cases h1' : images.length = 1
        · rw [if_pos h1'] at h
          by_cases hsy : w.symlinkOk
          · rw [if_pos hsy] at h
            rcases List.mem_cons.mp h with h1 | h1
            · exact Or.inl ⟨_, h1⟩
            rcases List.mem_append.mp h1 with h3 | h3
            · rcases ht1 _ h3 with hh | hh
              · exact Or.inl hh
              · exact Or.inr (Or.inl hh)
            rcases List.mem_cons.mp h3 with h4 | h4
            · exact Or.inr (Or.inr (Or.inr (Or.inl ⟨_, h4⟩)))
            · obtain ⟨b, hb, hop⟩ := configLoop_shape w _ _ _ h4
              exact Or.inr (Or.inr (Or.inr (Or.inr ⟨b, hb, hop⟩)))
          · rw [if_neg hsy] at h
            rcases List.mem_cons.mp h with h1 | h1
            · exact Or.inl ⟨_, h1⟩
            rcases List.mem_append.mp h1 with h3 | h3
            · rcases ht1 _ h3 with hh | hh
              · exact Or.inl hh
              · exact Or.inr (Or.inl hh)
            · rcases List.mem_singleton.mp h3 with h4
              exact Or.inr (Or.inr (Or.inr (Or.inl ⟨_, h4⟩)))
        · rw [if_neg h1'] at h
          rcases List.mem_cons.mp h with h1 | h1
          · exact Or.inl ⟨_, h1⟩
          rcases List.mem_append.mp h1 with h3 | h3
          · rcases ht1 _ h3 with hh | hh
            · exact Or.inl hh
            · exact Or.inr (Or.inl hh)
          · obtain ⟨b, hb, hop⟩ := configLoop_shape w _ _ _ h3
            exact Or.inr (Or.inr (Or.inr (Or.inr ⟨b, hb, hop⟩)))
    | err =>
      dsimp only at h
      rcases List.mem_cons.mp h with h1 | h1
      · exact Or.inl ⟨_, h1⟩
      · rcases ht1 _ h1 with hh | hh
        · exact Or.inl hh
        · exact Or.inr (Or.inl hh)
    | panic =>
      dsimp only at h
      rcases List.mem_cons.mp h with h1 | h1
      · exact Or.inl ⟨_, h1⟩
      · rcases ht1 _ h1 with hh | hh
        · exact Or.inl hh
        · exact Or.inr (Or.inl hh)
  · rw [if_neg hm] at h
    rcases List.mem_singleton.mp h with h1
    exact Or.inl ⟨_, h1⟩

/-- When every mkdir and erofs mount succeeds, the `/dev` scan returns the
per-device directories in discovery order. -/
theorem mountDevs_ok (w : GuestWorld) (hmk : ∀ p, w.mkdirOk p = true)
    (her : ∀ p, w.erofsOk p = true) :
    ∀ entries acc, (mountDevs w entries acc).1 = Res.ok (acc ++ vdDirs entries) := by
  intro entries
  induction entries with
  | nil => intro acc; simp [mountDevs, vdDirs]
  | cons name rest ih =>
    intro acc
    rw [mountDevs]
    by_cases hn : startsWithVd name = true
    · rw [if_pos hn]
      simp only [hmk, her, if_true]
      rw [ih (acc ++ ["/run/fex-emu/" ++ name])]
      simp [vdDirs, hn]
    · rw [if_neg hn, ih acc]
      simp [vdDirs, hn]

/-- With no `vd`-prefixed entry in `/dev`, the scan loop does nothing. -/
theorem mountDevs_empty (w : GuestWorld) :
    ∀ entries acc, vdDirs entries = [] →
      mountDevs w entries acc = (Res.ok acc, []) := by
  intro entries
  induction entries with
  | nil => intro acc _; rfl
  | cons name rest ih =>
    intro acc h0
    rw [vdDirs] at h0
    by_cases hn : startsWithVd name = true
    · simp [hn] at h0
    · rw [mountDevs, if_neg hn]
      apply ih
      rw [vdDirs]
      simpa [hn] using h0

/-- The full list of operations steps 3-6 of `mount_filesystems` can
perform, in program order. -/
def allResolvOps : List GOp :=
  [GOp.createFile "/tmp/resolv.conf", GOp.openTreeClone "/tmp/resolv.conf",
   GOp.moveMountOp "/etc/resolv.conf", GOp.mountBinfmt,
   GOp.createDirAll "/run/krun-host", GOp.bindMount "/" "/run/krun-host",
   GOp.mountTmpfs "/tmp/.X11-unix"]

/-- The trace of steps 3-6 is always an initial segment of the full
program-order operation list. -/
theorem resolvAndLater_initial (w : GuestWorld) :
    ∃ rest, (resolvAndLater w).2 ++ rest = allResolvOps := by
  rw [resolvAndLater, allResolvOps]
  unfold gstep
  split_ifs <;> exact ⟨_, rfl⟩

/-- If the X11 tmpfs mount was attempted, steps 3-6 ran in full and their
trace is exactly the full operation list. -/
theorem resolvAndLater_x11 (w : GuestWorld)
    (h : GOp.mountTmpfs "/tmp/.X11-unix" ∈ (resolvAndLater w).2) :
    (resolvAndLater w).2 = allResolvOps := by
  rw [resolvAndLater] at h ⊢
  rw [allResolvOps]
  unfold gstep at h ⊢
  split_ifs at h ⊢ <;> first | rfl | (exfalso; revert h; decide)

/-- When the first three step flags hold and step 3 is reached, the
placeholder creation, the clone, and the move-mount appear in this order in
the trace of steps 3-6. -/
theorem resolvAndLater_first3 (w : GuestWorld)
    (hc : w.createOk "/tmp/resolv.conf" = true) (ho : w.openTreeOk = true)
    (hm : w.moveMountOk = true) :
    ∃ t, (resolvAndLater w).2 =
      GOp.createFile "/tmp/resolv.conf" :: GOp.openTreeClone "/tmp/resolv.conf" ::
      GOp.moveMountOp "/etc/resolv.conf" :: t := by
  rw [resolvAndLater]
  unfold gstep
  rw [hc, ho, hm]
  simp only [if_true]
  exact ⟨_, rfl⟩

/-- Decomposition of the `mount_filesystems` trace: every operation is the
initial `/var/run` tmpfs mount, an operation of `mount_fex_rootfs`, the
fallback log message, or an operation of steps 3-6. -/
theorem mount_filesystems_mem (w : GuestWorld) (op : GOp)
    (h : op ∈ (mount_filesystems w).2) :
    op = GOp.mountTmpfs "/var/run" ∨ op ∈ (mount_fex_rootfs w).2 ∨
    op = GOp.logMsg failFexMsg ∨ op ∈ (resolvAndLater w).2 := by
  rw [mount_filesystems] at h
  by_cases ht : w.tmpfsOk "/var/run"
  · rw [if_pos ht] at h
    rcases hfex : mount_fex_rootfs w with ⟨r, t⟩
    rw [hfex] at h
    cases r with
    | ok a =>
      dsimp only at h
      rcases List.mem_cons.mp h with h1 | h1
      · exact Or.inl h1
      rcases List.mem_append.mp h1 with h2 | h2
      · exact Or.inr (Or.inl h2)
      · exact Or.inr (Or.inr (Or.inr h2))
    | err =>
      dsimp only at h
      rcases List.mem_cons.mp h with h1 | h1
      · exact Or.inl h1
      rcases List.mem_append.mp h1 with h2 | h2
      · exact Or.inr (Or.inl h2)
      rcases List.mem_cons.mp h2 with h3 | h3
      · exact Or.inr (Or.inr (Or.inl h3))
      · exact Or.inr (Or.inr (Or.inr h3))
    | panic =>
      dsimp only at h
      rcases List.mem_cons.mp h with h1 | h1
      · exact Or.inl h1
      · exact Or.inr (Or.inl h1)
  · rw [if_neg ht] at h
    exact Or.inl (List.mem_singleton.mp h ▸ rfl)

/-! ## Guest-side claims -/

/-- A guest world where the single discovered device's erofs mount fails
(and everything else would succeed). -/
def wErofsFail : GuestWorld :=
  { devEntries := ["vda"], mkdirOk := fun _ => true, tmpfsOk := fun _ => true,
    erofsOk := fun _ => false, overlayOk := true, symlinkOk := true,
    pathExists := fun _ => false, createOk := fun _ => true,
    writeOk := fun _ => true, openTreeOk := true, moveMountOk := true,
    binfmtOk := true, createDirAllOk := true, bindMountOk := true }

/-- A guest world with two devices where the overlay mount fails. -/
def wOverlayFail : GuestWorld :=
  { devEntries := ["vda", "vdb"], mkdirOk := fun _ => true,
    tmpfsOk := fun _ => true, erofsOk := fun _ => true, overlayOk := false,
    symlinkOk := true, pathExists := fun _ => false,
    createOk := fun _ => true, writeOk := fun _ => true, openTreeOk := true,
    moveMountOk := true, binfmtOk := true, createDirAllOk := true,
    bindMountOk := true }

/-- C1 counterexample: a failing per-device erofs mount — one of the
failure sites the claim calls non-fatal — panics, so `mount_filesystems`
aborts and never reaches the resolv.conf replacement or the binfmt mount. -/
theorem claim_C1_counterexample :
    (mount_filesystems wErofsFail).1 = Res.panic ∧
    GOp.mountErofs "/dev/vda" "/run/fex-emu/vda" ∈ (mount_filesystems wErofsFail).2 ∧
    GOp.createFile "/tmp/resolv.conf" ∉ (mount_filesystems wErofsFail).2 ∧
    GOp.mountBinfmt ∉ (mount_filesystems wErofsFail).2 := by
  decide

/-- C1 (amended): only the failures that `mount_fex_rootfs` surfaces as an
`Err` — overlay mounting, symlink creation, config rewriting — are
non-fatal: they are logged and `mount_filesystems` continues with and
completes the remaining steps; failures in base-directory creation, device
enumeration, or per-device erofs mounting are `.unwrap()` panics that abort
the bootstrap with no further steps. -/
theorem claim_C1_fex_failure_semantics (w : GuestWorld)
    (htmp : w.tmpfsOk "/var/run" = true) :
    ((mount_fex_rootfs w).1 = Res.err →
      (mount_filesystems w).1 = (resolvAndLater w).1 ∧
      (mount_filesystems w).2 = GOp.mountTmpfs "/var/run" ::
        (mount_fex_rootfs w).2 ++ GOp.logMsg failFexMsg :: (resolvAndLater w).2) ∧
    ((mount_fex_rootfs w).1 = Res.panic →
      (mount_filesystems w).1 = Res.panic ∧
      (mount_filesystems w).2 = GOp.mountTmpfs "/var/run" :: (mount_fex_rootfs w).2) := by
  rcases hfex : mount_fex_rootfs w with ⟨r, t⟩
  rw [mount_filesystems, htmp, hfex]
  cases r with
  | ok a =>
    dsimp only
    constructor
    · intro h; simp at h
    · intro h; simp at h
  | err =>
    dsimp only
    constructor
    · intro _; exact ⟨rfl, rfl⟩
    · intro h; simp at h
  | panic =>
    dsimp only
    constructor
    · intro h; simp at h
    · intro _; exact ⟨rfl, rfl⟩

theorem claim_C1_witness :
    wOverlayFail.tmpfsOk "/var/run" = true ∧
    (mount_fex_rootfs wOverlayFail).1 = Res.err ∧
    ((mount_filesystems wOverlayFail).1 = (resolvAndLater wOverlayFail).1 ∧
     (mount_filesystems wOverlayFail).2 = GOp.mountTmpfs "/var/run" ::
       (mount_fex_rootfs wOverlayFail).2 ++
       GOp.logMsg failFexMsg :: (resolvAndLater wOverlayFail).2) :=
  ⟨rfl, by decide, (claim_C1_fex_failure_semantics wOverlayFail rfl).1 (by decide)⟩

/-- A guest world with three devices `vd0`, `vd1`, `vd2` and all operations
succeeding. -/
def wThreeDevs : GuestWorld :=
  { devEntries := ["vd0", "vd1", "vd2"], mkdirOk := fun _ => true,
    tmpfsOk := fun _ => true, erofsOk := fun _ => true, overlayOk := true,
    symlinkOk := true, pathExists := fun _ => false,
    createOk := fun _ => true, writeOk := fun _ => true, openTreeOk := true,
    moveMountOk := true, binfmtOk := true, createDirAllOk := true,
    bindMountOk := true }

/-- A guest world with a single device `vda` and all operations
succeeding. -/
def wOneDev : GuestWorld :=
  { devEntries := ["vda"], mkdirOk := fun _ => true, tmpfsOk := fun _ => true,
    erofsOk := fun _ => true, overlayOk := true, symlinkOk := true,
    pathExists := fun _ => false, createOk := fun _ => true,
    writeOk := fun _ => true, openTreeOk := true, moveMountOk := true,
    binfmtOk := true, createDirAllOk := true, bindMountOk := true }

/-- C5: with at least two discovered image directories the overlay is
mounted with a lowerdir string joining them with `:` in reverse discovery
order; with exactly one, no overlay is mounted and the rootfs path is a
symlink to the single directory. -/
theorem claim_C5_overlay_order (w : GuestWorld)
    (hmk : ∀ p, w.mkdirOk p = true) (her : ∀ p, w.erofsOk p = true) :
    (2 ≤ (vdDirs w.devEntries).length →
      GOp.mountOverlay "/run/fex-emu/rootfs"
        ("lowerdir=" ++ String.intercalate ":" (vdDirs w.devEntries).reverse)
        ∈ (mount_fex_rootfs w).2) ∧
    ((vdDirs w.devEntries).length = 1 →
      (∀ d o, GOp.mountOverlay d o ∉ (mount_fex_rootfs w).2) ∧
      GOp.symlinkOp ((vdDirs w.devEntries).headD "") "/run/fex-emu/rootfs"
        ∈ (mount_fex_rootfs w).2) := by
  rcases hmd : mountDevs w w.devEntries [] with ⟨r, t1⟩
  have hr : r = Res.ok (vdDirs w.devEntries) := by
    have h := mountDevs_ok w hmk her w.devEntries []
    rw [hmd] at h
    simpa using h
  subst hr
  rw [mount_fex_rootfs]
  rw [hmk "/run/fex-emu/"]
  simp only [if_true]
  rw [hmd]
  constructor
  · intro h2
    dsimp only
    rw [if_pos h2, hmk "/run/fex-emu/rootfs"]
    simp only [if_true]
    by_cases hov : w.overlayOk
    · rw [if_pos hov]
      simp
    · rw [if_neg hov]
      simp
  · intro h1
    dsimp only
    rw [if_neg (by omega), if_pos h1]
    constructor
    · intro d o hmem
      by_cases hsy : w.symlinkOk
      · rw [if_pos hsy] at hmem
        rcases List.mem_cons.mp hmem with hh | hh
        · cases hh
        rcases List.mem_append.mp hh with hh1 | hh1
        · rcases mountDevs_shape w w.devEntries [] _ (by rw [hmd]; exact hh1) with ⟨_, he⟩ | ⟨_, _, he⟩ <;> cases he
        rcases List.mem_cons.mp hh1 with hh2 | hh2
        · cases hh2
        · obtain ⟨b, _, hop⟩ := configLoop_shape w _ _ _ hh2
          rcases hop with he | he | he <;> cases he
      · rw [if_neg hsy] at hmem
        rcases List.mem_cons.mp hmem with hh | hh
        · cases hh
        rcases List.mem_append.mp hh with hh1 | hh1
        · rcases mountDevs_shape w w.devEntries [] _ (by rw [hmd]; exact hh1) with ⟨_, he⟩ | ⟨_, _, he⟩ <;> cases he
        · rcases List.mem_singleton.mp hh1 with he
          cases he
    · by_cases hsy : w.symlinkOk
      · rw [if_pos hsy]
        simp
      · rw [if_neg hsy]
        simp

theorem claim_C5_witness :
    (∀ p, wThreeDevs.mkdirOk p = true) ∧ (∀ p, wThreeDevs.erofsOk p = true) ∧
    2 ≤ (vdDirs wThreeDevs.devEntries).length ∧
    GOp.mountOverlay "/run/fex-emu/rootfs"
      "lowerdir=/run/fex-emu/vd2:/run/fex-emu/vd1:/run/fex-emu/vd0"
      ∈ (mount_fex_rootfs wThreeDevs).2 ∧
    (vdDirs wOneDev.devEntries).length = 1 ∧
    GOp.symlinkOp "/run/fex-emu/vda" "/run/fex-emu/rootfs"
      ∈ (mount_fex_rootfs wOneDev).2 ∧
    (∀ d o, GOp.mountOverlay d o ∉ (mount_fex_rootfs wOneDev).2) :=
  ⟨fun _ => rfl, fun _ => rfl, by decide,
   by
    have h := (claim_C5_overlay_order wThreeDevs (fun _ => rfl) (fun _ => rfl)).1
      (by decide)
    simpa using h,
   by decide,
   by
    have h := ((claim_C5_overlay_order wOneDev (fun _ => rfl) (fun _ => rfl)).2
      (by decide)).2
    simpa using h,
   ((claim_C5_overlay_order wOneDev (fun _ => rfl) (fun _ => rfl)).2
      (by decide)).1⟩

/-- A guest world with no block devices in `/dev` but an existing
`/usr/share/fex-emu` directory, all operations succeeding. -/
def wNoDevs : GuestWorld :=
  { devEntries := ["null", "zero"], mkdirOk := fun _ => true,
    tmpfsOk := fun _ => true, erofsOk := fun _ => true, overlayOk := true,
    symlinkOk := true,
    pathExists := fun p => p = "/usr/share/fex-emu",
    createOk := fun _ => true, writeOk := fun _ => true, openTreeOk := true,
    moveMountOk := true, binfmtOk := true, createDirAllOk := true,
    bindMountOk := true }

/-- C6 counterexample: with zero images discovered, `mount_fex_rootfs` still
mounts a tmpfs over the existing `/usr/share/fex-emu` and rewrites its
`Config.json` — the emulation-config directories are not left unchanged. -/
theorem claim_C6_counterexample :
    vdDirs wNoDevs.devEntries = [] ∧
    GOp.mountTmpfs "/usr/share/fex-emu" ∈ (mount_fex_rootfs wNoDevs).2 ∧
    GOp.writeFile "/usr/share/fex-emu/Config.json"
      (fexJson "/run/fex-emu/rootfs") ∈ (mount_fex_rootfs wNoDevs).2 := by
  decide

/-- When the per-directory tmpfs, create and write operations all succeed,
the config-rewrite loop mounts a tmpfs over every visited base directory
that exists and writes its redirecting `Config.json`. -/
theorem configLoop_covers (w : GuestWorld) (dr : String)
    (ht : ∀ p, w.tmpfsOk p = true) (hc : ∀ p, w.createOk p = true)
    (hw : ∀ p, w.writeOk p = true) :
    ∀ bases b, b ∈ bases → w.pathExists b = true →
      GOp.mountTmpfs b ∈ (configLoop w dr bases).2 ∧
      GOp.writeFile (b ++ "/Config.json") (fexJson dr)
        ∈ (configLoop w dr bases).2 := by
  intro bases
  induction bases with
  | nil => intro b hb _; cases hb
  | cons base rest ih =>
    intro b hb hp
    rw [configLoop]
    by_cases hpb : w.pathExists base
    · rw [if_pos hpb]
      simp only [ht, hc, hw, if_true]
      rcases List.mem_cons.mp hb with h1 | h1
      · subst h1
        exact ⟨List.mem_cons_self _ _,
          List.mem_cons_of_mem _ (List.mem_cons_of_mem _ (List.mem_cons_self _ _))⟩
      · have h := ih b h1 hp
        exact ⟨List.mem_cons_of_mem _ (List.mem_cons_of_mem _
            (List.mem_cons_of_mem _ h.1)),
          List.mem_cons_of_mem _ (List.mem_cons_of_mem _
            (List.mem_cons_of_mem _ h.2))⟩
    · rw [if_neg hpb]
      rcases List.mem_cons.mp hb with h1 | h1
      · subst h1; exact absurd hp hpb
      · exact ih b h1 hp

/-- C6 (amended): with zero images discovered there is no overlay mount and
no symlink creation, but `mount_fex_rootfs` still creates the base directory
`/run/fex-emu/` and, when the per-directory operations succeed, still
replaces each existing emulation-config directory (`/usr/share/fex-emu` and
`/usr/local/share/fex-emu`) with a tmpfs and a rewritten `Config.json`
pointing at the composed rootfs path. -/
theorem claim_C6_zero_images (w : GuestWorld)
    (h0 : vdDirs w.devEntries = []) :
    (∀ d o, GOp.mountOverlay d o ∉ (mount_fex_rootfs w).2) ∧
    (∀ t l, GOp.symlinkOp t l ∉ (mount_fex_rootfs w).2) ∧
    (w.mkdirOk "/run/fex-emu/" = true →
      GOp.mkdirOp "/run/fex-emu/" ∈ (mount_fex_rootfs w).2 ∧
      ((∀ p, w.tmpfsOk p = true) → (∀ p, w.createOk p = true) →
       (∀ p, w.writeOk p = true) →
        ∀ b, b ∈ fexBases → w.pathExists b = true →
          GOp.mountTmpfs b ∈ (mount_fex_rootfs w).2 ∧
          GOp.writeFile (b ++ "/Config.json") (fexJson "/run/fex-emu/rootfs")
            ∈ (mount_fex_rootfs w).2)) := by
  have hmd := mountDevs_empty w w.devEntries [] h0
  have htrace : ∀ op, op ∈ (mount_fex_rootfs w).2 →
      op = GOp.mkdirOp "/run/fex-emu/" ∨
      op ∈ (configLoop w "/run/fex-emu/rootfs" fexBases).2 := by
    intro op hop
    rw [mount_fex_rootfs] at hop
    by_cases hm : w.mkdirOk "/run/fex-emu/"
    · rw [if_pos hm, hmd] at hop
      dsimp only at hop
      rw [if_neg (by simp), if_neg (by simp)] at hop
      rcases List.mem_cons.mp hop with h1 | h1
      · exact Or.inl h1
      · exact Or.inr (by simpa using h1)
    · rw [if_neg hm] at hop
      exact Or.inl (List.mem_singleton.mp hop)
  refine ⟨?_, ?_, ?_⟩
  · intro d o hmem
    rcases htrace _ hmem with h1 | h1
    · cases h1
    · obtain ⟨b, _, hop⟩ := configLoop_shape w _ _ _ h1
      rcases hop with he | he | he <;> cases he
  · intro t l hmem
    rcases htrace _ hmem with h1 | h1
    · cases h1
    · obtain ⟨b, _, hop⟩ := configLoop_shape w _ _ _ h1
      rcases hop with he | he | he <;> cases he
  · intro hm
    rw [mount_fex_rootfs, hm]
    simp only [if_true]
    rw [hmd]
    dsimp only
    rw [if_neg (by simp), if_neg (by simp)]
    simp only [List.cons_append, List.nil_append]
    constructor
    · exact List.mem_cons_self _ _
    · intro ht hc hw b hb hp
      have h := configLoop_covers w "/run/fex-emu/rootfs" ht hc hw fexBases b hb hp
      exact ⟨List.mem_cons_of_mem _ h.1, List.mem_cons_of_mem _ h.2⟩

/-- A guest world with no block devices where both emulation-config
directories exist and every operation succeeds. -/
def wTwoCfg : GuestWorld :=
  { devEntries := ["console"], mkdirOk := fun _ => true,
    tmpfsOk := fun _ => true, erofsOk := fun _ => true, overlayOk := true,
    symlinkOk := true,
    pathExists := fun p =>
      p = "/usr/share/fex-emu" ∨ p = "/usr/local/share/fex-emu",
    createOk := fun _ => true, writeOk := fun _ => true, openTreeOk := true,
    moveMountOk := true, binfmtOk := true, createDirAllOk := true,
    bindMountOk := true }

theorem claim_C6_witness :
    vdDirs wTwoCfg.devEntries = [] ∧
    ((∀ d o, GOp.mountOverlay d o ∉ (mount_fex_rootfs wTwoCfg).2) ∧
     (∀ t l, GOp.symlinkOp t l ∉ (mount_fex_rootfs wTwoCfg).2)) ∧
    GOp.mkdirOp "/run/fex-emu/" ∈ (mount_fex_rootfs wTwoCfg).2 ∧
    (GOp.mountTmpfs "/usr/share/fex-emu" ∈ (mount_fex_rootfs wTwoCfg).2 ∧
     GOp.writeFile "/usr/share/fex-emu/Config.json"
       (fexJson "/run/fex-emu/rootfs") ∈ (mount_fex_rootfs wTwoCfg).2) ∧
    (GOp.mountTmpfs "/usr/local/share/fex-emu" ∈ (mount_fex_rootfs wTwoCfg).2 ∧
     GOp.writeFile "/usr/local/share/fex-emu/Config.json"
       (fexJson "/run/fex-emu/rootfs") ∈ (mount_fex_rootfs wTwoCfg).2) := by
  have h := claim_C6_zero_images wTwoCfg (by decide)
  have hshare := (h.2.2 rfl).2 (fun _ => rfl) (fun _ => rfl) (fun _ => rfl)
    "/usr/share/fex-emu" (by decide) (by decide)
  have hlocal := (h.2.2 rfl).2 (fun _ => rfl) (fun _ => rfl) (fun _ => rfl)
    "/usr/local/share/fex-emu" (by decide) (by decide)
  refine ⟨by decide, ⟨h.1, h.2.1⟩, (h.2.2 rfl).1, ⟨hshare.1, ?_⟩, ⟨hlocal.1, ?_⟩⟩
  · have hh := hshare.2
    rwa [show ("/usr/share/fex-emu" ++ "/Config.json" : String) =
      "/usr/share/fex-emu/Config.json" from by decide] at hh
  · have hh := hlocal.2
    rwa [show ("/usr/local/share/fex-emu" ++ "/Config.json" : String) =
      "/usr/local/share/fex-emu/Config.json" from by decide] at hh

/-- `mount_fex_rootfs` never touches `/etc/resolv.conf`. -/
theorem fex_no_etc_resolv (w : GuestWorld) (c : String) :
    GOp.createFile "/etc/resolv.conf" ∉ (mount_fex_rootfs w).2 ∧
    GOp.writeFile "/etc/resolv.conf" c ∉ (mount_fex_rootfs w).2 := by
  constructor
  · intro h
    rcases fex_shape w _ h with ⟨d, he⟩ | ⟨s, d, he⟩ | ⟨o, he⟩ | ⟨t, he⟩ | ⟨b, hb, hop⟩
    · cases he
    · cases he
    · cases he
    · cases he
    · rcases hop with he | he | he
      · cases he
      · injection he with hpath
        rw [fexBases] at hb
        rcases List.mem_cons.mp hb with hb1 | hb1
        · subst hb1; revert hpath; decide
        · rcases List.mem_singleton.mp hb1 with hb2
          subst hb2; revert hpath; decide
      · cases he
  · intro h
    rcases fex_shape w _ h with ⟨d, he⟩ | ⟨s, d, he⟩ | ⟨o, he⟩ | ⟨t, he⟩ | ⟨b, hb, hop⟩
    · cases he
    · cases he
    · cases he
    · cases he
    · rcases hop with he | he | he
      · cases he
      · cases he
      · injection he with hpath _
        rw [fexBases] at hb
        rcases List.mem_cons.mp hb with hb1 | hb1
        · subst hb1; revert hpath; decide
        · rcases List.mem_singleton.mp hb1 with hb2
          subst hb2; revert hpath; decide

/-- C7: whenever step 3 is reached, `/etc/resolv.conf` is replaced by first
creating the `/tmp/resolv.conf` placeholder, then opening a private clone of
it and move-mounting the clone over `/etc/resolv.conf`, in that order; and
in no run is `/etc/resolv.conf` itself ever created or written. -/
theorem claim_C7_resolv_replacement (w : GuestWorld) :
    (∀ c, GOp.createFile "/etc/resolv.conf" ∉ (mount_filesystems w).2 ∧
          GOp.writeFile "/etc/resolv.conf" c ∉ (mount_filesystems w).2) ∧
    (w.tmpfsOk "/var/run" = true → (mount_fex_rootfs w).1 ≠ Res.panic →
     w.createOk "/tmp/resolv.conf" = true → w.openTreeOk = true →
     w.moveMountOk = true →
      List.Sublist
        [GOp.createFile "/tmp/resolv.conf", GOp.openTreeClone "/tmp/resolv.conf",
         GOp.moveMountOp "/etc/resolv.conf"] (mount_filesystems w).2) := by
  constructor
  · intro c
    have hres : ∀ op, op ∈ (resolvAndLater w).2 → op ∈ allResolvOps := by
      intro op hop
      obtain ⟨rest, hall⟩ := resolvAndLater_initial w
      rw [← hall]
      exact List.mem_append_left _ hop
    constructor
    · intro h
      rcases mount_filesystems_mem w _ h with h1 | h1 | h1 | h1
      · cases h1
      · exact (fex_no_etc_resolv w c).1 h1
      · cases h1
      · have := hres _ h1
        revert this; decide
    · intro h
      rcases mount_filesystems_mem w _ h with h1 | h1 | h1 | h1
      · cases h1
      · exact (fex_no_etc_resolv w c).2 h1
      · cases h1
      · have := hres _ h1
        simp [allResolvOps] at this
  · intro htmp hnp hc ho hm
    obtain ⟨t4, hrt⟩ := resolvAndLater_first3 w hc ho hm
    have hsub3 : List.Sublist
        [GOp.createFile "/tmp/resolv.conf", GOp.openTreeClone "/tmp/resolv.conf",
         GOp.moveMountOp "/etc/resolv.conf"] (resolvAndLater w).2 := by
      rw [hrt]
      exact List.Sublist.cons₂ _ (List.Sublist.cons₂ _ (List.Sublist.cons₂ _
        (List.nil_sublist t4)))
    rcases hfex : mount_fex_rootfs w with ⟨r, t⟩
    rw [mount_filesystems, htmp, hfex]
    cases r with
    | ok a =>
      dsimp only
      exact List.Sublist.cons _ (hsub3.trans (List.sublist_append_right t _))
    | err =>
      dsimp only
      exact List.Sublist.cons _ ((hsub3.trans (List.sublist_cons_self _ _)).trans
        (List.sublist_append_right t _))
    | panic =>
      exact absurd (by rw [hfex]) hnp

theorem claim_C7_witness :
    (wNoDevs.tmpfsOk "/var/run" = true ∧ (mount_fex_rootfs wNoDevs).1 ≠ Res.panic ∧
     wNoDevs.createOk "/tmp/resolv.conf" = true ∧ wNoDevs.openTreeOk = true ∧
     wNoDevs.moveMountOk = true) ∧
    (GOp.createFile "/etc/resolv.conf" ∉ (mount_filesystems wNoDevs).2 ∧
     GOp.writeFile "/etc/resolv.conf" "" ∉ (mount_filesystems wNoDevs).2) ∧
    List.Sublist
      [GOp.createFile "/tmp/resolv.conf", GOp.openTreeClone "/tmp/resolv.conf",
       GOp.moveMountOp "/etc/resolv.conf"] (mount_filesystems wNoDevs).2 :=
  ⟨⟨rfl, by decide, rfl, rfl, rfl⟩,
   (claim_C7_resolv_replacement wNoDevs).1 "",
   (claim_C7_resolv_replacement wNoDevs).2 rfl (by decide) rfl rfl rfl⟩

/-- `mount_fex_rootfs` never mounts a tmpfs over `/tmp/.X11-unix`. -/
theorem fex_no_x11 (w : GuestWorld) :
    GOp.mountTmpfs "/tmp/.X11-unix" ∉ (mount_fex_rootfs w).2 := by
  intro h
  rcases fex_shape w _ h with ⟨d, he⟩ | ⟨s, d, he⟩ | ⟨o, he⟩ | ⟨t, he⟩ | ⟨b, hb, hop⟩
  · cases he
  · cases he
  · cases he
  · cases he
  · rcases hop with he | he | he
    · injection he with hdir
      rw [fexBases] at hb
      rcases List.mem_cons.mp hb with hb1 | hb1
      · subst hb1; revert hdir; decide
      · rcases List.mem_singleton.mp hb1 with hb2
        subst hb2; revert hdir; decide
    · cases he
    · cases he

/-- C8: whenever the X11 tmpfs mount appears in the bootstrap trace, the
bind-mount of `/` onto `/run/krun-host` appears strictly before it (and the
X11 mount never precedes it). -/
theorem claim_C8_bind_before_x11 (w : GuestWorld)
    (hx : GOp.mountTmpfs "/tmp/.X11-unix" ∈ (mount_filesystems w).2) :
    ∃ l1 l2, (mount_filesystems w).2 =
        l1 ++ GOp.bindMount "/" "/run/krun-host" :: l2 ∧
      GOp.mountTmpfs "/tmp/.X11-unix" ∉ l1 ∧
      GOp.mountTmpfs "/tmp/.X11-unix" ∈ l2 := by
  have hres : (resolvAndLater w).2 = allResolvOps := by
    apply resolvAndLater_x11
    rcases mount_filesystems_mem w _ hx with h1 | h1 | h1 | h1
    · exact absurd h1 (by decide)
    · exact absurd h1 (fex_no_x11 w)
    · cases h1
    · exact h1
  by_cases htmp : w.tmpfsOk "/var/run"
  · rcases hfex : mount_fex_rootfs w with ⟨r, t⟩
    rw [mount_filesystems, htmp, hfex] at hx ⊢
    have hnt : GOp.mountTmpfs "/tmp/.X11-unix" ∉ t := by
      intro hmem
      exact fex_no_x11 w (by rw [hfex]; exact hmem)
    cases r with
    | ok a =>
      dsimp only at hx ⊢
      refine ⟨GOp.mountTmpfs "/var/run" :: t ++
        [GOp.createFile "/tmp/resolv.conf", GOp.openTreeClone "/tmp/resolv.conf",
         GOp.moveMountOp "/etc/resolv.conf", GOp.mountBinfmt,
         GOp.createDirAll "/run/krun-host"],
        [GOp.mountTmpfs "/tmp/.X11-unix"], ?_, ?_, ?_⟩
      · rw [hres, allResolvOps]
        simp
      · intro hmem
        rcases List.mem_cons.mp hmem with h1 | h1
        · exact absurd h1 (by decide)
        rcases List.mem_append.mp h1 with h2 | h2
        · exact hnt h2
        · revert h2; decide
      · exact List.mem_singleton.mpr rfl
    | err =>
      dsimp only at hx ⊢
      refine ⟨GOp.mountTmpfs "/var/run" :: t ++
        (GOp.logMsg failFexMsg ::
         [GOp.createFile "/tmp/resolv.conf", GOp.openTreeClone "/tmp/resolv.conf",
          GOp.moveMountOp "/etc/resolv.conf", GOp.mountBinfmt,
          GOp.createDirAll "/run/krun-host"]),
        [GOp.mountTmpfs "/tmp/.X11-unix"], ?_, ?_, ?_⟩
      · rw [hres, allResolvOps]
        simp
      · intro hmem
        rcases List.mem_cons.mp hmem with h1 | h1
        · exact absurd h1 (by decide)
        rcases List.mem_append.mp h1 with h2 | h2
        · exact hnt h2
        · revert h2; decide
      · exact List.mem_singleton.mpr rfl
    | panic =>
      dsimp only at hx
      rcases List.mem_cons.mp hx with h1 | h1
      · exact absurd h1 (by decide)
      · exact absurd h1 hnt
  · rw [mount_filesystems] at hx
    rw [if_neg htmp] at hx
    rcases List.mem_singleton.mp hx with h1
    exact absurd h1 (by decide)

/-- A guest world with no block devices where `/tmp/.X11-unix` exists and
every operation succeeds. -/
def wX11 : GuestWorld :=
  { devEntries := [], mkdirOk := fun _ => true, tmpfsOk := fun _ => true,
    erofsOk := fun _ => true, overlayOk := true, symlinkOk := true,
    pathExists := fun p => p = "/tmp/.X11-unix", createOk := fun _ => true,
    writeOk := fun _ => true, openTreeOk := true, moveMountOk := true,
    binfmtOk := true, createDirAllOk := true, bindMountOk := true }

theorem claim_C8_witness :
    GOp.mountTmpfs "/tmp/.X11-unix" ∈ (mount_filesystems wX11).2 ∧
    ∃ l1 l2, (mount_filesystems wX11).2 =
        l1 ++ GOp.bindMount "/" "/run/krun-host" :: l2 ∧
      GOp.mountTmpfs "/tmp/.X11-unix" ∉ l1 ∧
      GOp.mountTmpfs "/tmp/.X11-unix" ∈ l2 :=
  ⟨by decide, claim_C8_bind_before_x11 wX11 (by decide)⟩
end Krun
